import Mathlib

/-!
Verification of the yquake2 gyro/analog input subsystem.

This file gives a shallow embedding, over the real numbers, of

* `src/client/input/gyro_tracker.c` — the sensor-fusion orientation
  tracker (quaternion state, gyro integration, accelerometer drift
  correction, recentring, forward-vector query); and
* `src/client/input/input_common.c` — the analog input shaping pipeline
  (radial and sloped-axial deadzones, gyro tightening, flick stick and
  its ease-out schedule).

Floating point values (`float`/`double`) are modelled as real numbers;
`uint64_t` timestamps are modelled as naturals with explicit reduction
modulo 2^64 where the C code relies on unsigned wraparound.  The
HandmadeMath vector/quaternion routines used by `gyro_tracker.c`
(`HMM_MultiplyQuaternion`, `HMM_QuaternionFromAxisAngle`,
`HMM_QuaternionToMat4`, `HMM_InverseQuaternion`, `HMM_NormalizeVec3`,
`HMM_Cross`, `HMM_LengthVec3`, ...) are embedded following their
standard definitions (the vendored header is part of the renderer and
is not among the excerpted sources); the libm functions `atan2f` and
`asinf` are modelled by the complex argument and `Real.arcsin`.
-/

open Classical

noncomputable section

/-- 2D thumbstick value, `thumbstick_t` from `input_common.h`. -/
structure Thumbstick where
  x : ℝ
  y : ℝ

/-- 3D vector, `hmm_vec3` from HandmadeMath. -/
structure Vec3 where
  x : ℝ
  y : ℝ
  z : ℝ

/-- Quaternion `hmm_quaternion` from HandmadeMath, components (X, Y, Z, W);
the identity rotation is `⟨0, 0, 0, 1⟩`. -/
structure Quat where
  x : ℝ
  y : ℝ
  z : ℝ
  w : ℝ

/-! ### HandmadeMath vector and quaternion operations -/

/-- `HMM_AddVec3`. -/
def addVec3 (a b : Vec3) : Vec3 := ⟨a.x + b.x, a.y + b.y, a.z + b.z⟩

/-- `HMM_MultiplyVec3f` (componentwise scale). -/
def mulVec3f (a : Vec3) (f : ℝ) : Vec3 := ⟨a.x * f, a.y * f, a.z * f⟩

/-- `HMM_DivideVec3f` (componentwise divide). -/
def divVec3f (a : Vec3) (f : ℝ) : Vec3 := ⟨a.x / f, a.y / f, a.z / f⟩

/-- `HMM_DotVec3`. -/
def dotVec3 (a b : Vec3) : ℝ := a.x * b.x + a.y * b.y + a.z * b.z

/-- `HMM_LengthVec3` (square root of the dot product with itself). -/
def lengthVec3 (a : Vec3) : ℝ := Real.sqrt (dotVec3 a a)

/-- `HMM_Cross`. -/
def crossVec3 (a b : Vec3) : Vec3 :=
  ⟨a.y * b.z - a.z * b.y, a.z * b.x - a.x * b.z, a.x * b.y - a.y * b.x⟩

/-- `HMM_NormalizeVec3`: zero when length is zero, otherwise each
component times the reciprocal length. -/
def normalizeVec3 (a : Vec3) : Vec3 :=
  if lengthVec3 a = 0 then ⟨0, 0, 0⟩
  else ⟨a.x * (1 / lengthVec3 a), a.y * (1 / lengthVec3 a), a.z * (1 / lengthVec3 a)⟩

/-- `HMM_DotQuaternion` (squared norm). -/
def quatDot (l r : Quat) : ℝ := l.x * r.x + l.y * r.y + l.z * r.z + l.w * r.w

/-- `HMM_MultiplyQuaternion` (Hamilton product in HandmadeMath's
component convention). -/
def mulQ (l r : Quat) : Quat :=
  ⟨(l.x * r.w) + (l.y * r.z) - (l.z * r.y) + (l.w * r.x),
   (-l.x * r.z) + (l.y * r.w) + (l.z * r.x) + (l.w * r.y),
   (l.x * r.y) - (l.y * r.x) + (l.z * r.w) + (l.w * r.z),
   (-l.x * r.x) - (l.y * r.y) - (l.z * r.z) + (l.w * r.w)⟩

/-- Quaternion conjugate (as in `HMM_InverseQuaternion`'s intermediate). -/
def conjQ (q : Quat) : Quat := ⟨-q.x, -q.y, -q.z, q.w⟩

/-- `HMM_InverseQuaternion`: conjugate divided by the squared norm
(computed in the source as the square of the square root of the dot). -/
def inverseQ (q : Quat) : Quat :=
  ⟨-q.x / (Real.sqrt (quatDot q q) * Real.sqrt (quatDot q q)),
   -q.y / (Real.sqrt (quatDot q q) * Real.sqrt (quatDot q q)),
   -q.z / (Real.sqrt (quatDot q q) * Real.sqrt (quatDot q q)),
   q.w / (Real.sqrt (quatDot q q) * Real.sqrt (quatDot q q))⟩

/-- `HMM_QuaternionFromAxisAngle`: normalises the axis, scales it by
the sine of half the angle, with cosine of half the angle as scalar part. -/
def fromAxisAngle (axis : Vec3) (angle : ℝ) : Quat :=
  ⟨(normalizeVec3 axis).x * Real.sin (angle / 2),
   (normalizeVec3 axis).y * Real.sin (angle / 2),
   (normalizeVec3 axis).z * Real.sin (angle / 2),
   Real.cos (angle / 2)⟩

/-- `HMM_NormalizeQuaternion`: divide every component by the norm. -/
def normalizeQ (q : Quat) : Quat :=
  ⟨q.x / Real.sqrt (quatDot q q), q.y / Real.sqrt (quatDot q q),
   q.z / Real.sqrt (quatDot q q), q.w / Real.sqrt (quatDot q q)⟩

/-- `HMM_QuaternionToMat4`, as a column-major indexing function
`Elements[column][row]`; the quaternion is normalised first. -/
def quaternionToMat4 (q : Quat) : ℕ → ℕ → ℝ := fun col row =>
  match col, row with
  | 0, 0 => 1 - 2 * ((normalizeQ q).y * (normalizeQ q).y + (normalizeQ q).z * (normalizeQ q).z)
  | 0, 1 => 2 * ((normalizeQ q).x * (normalizeQ q).y + (normalizeQ q).w * (normalizeQ q).z)
  | 0, 2 => 2 * ((normalizeQ q).x * (normalizeQ q).z - (normalizeQ q).w * (normalizeQ q).y)
  | 1, 0 => 2 * ((normalizeQ q).x * (normalizeQ q).y - (normalizeQ q).w * (normalizeQ q).z)
  | 1, 1 => 1 - 2 * ((normalizeQ q).x * (normalizeQ q).x + (normalizeQ q).z * (normalizeQ q).z)
  | 1, 2 => 2 * ((normalizeQ q).y * (normalizeQ q).z + (normalizeQ q).w * (normalizeQ q).x)
  | 2, 0 => 2 * ((normalizeQ q).x * (normalizeQ q).z + (normalizeQ q).w * (normalizeQ q).y)
  | 2, 1 => 2 * ((normalizeQ q).y * (normalizeQ q).z - (normalizeQ q).w * (normalizeQ q).x)
  | 2, 2 => 1 - 2 * ((normalizeQ q).x * (normalizeQ q).x + (normalizeQ q).y * (normalizeQ q).y)
  | 3, 3 => 1
  | _, _ => 0

/-- `GetMatrixColumn` from `gyro_tracker.c`: the first three rows of one
column. -/
def getMatrixColumn (m : ℕ → ℕ → ℝ) (column : ℕ) : Vec3 :=
  ⟨m column 0, m column 1, m column 2⟩

/-- `atan2f(y, x)`, modelled as the argument of the complex number
`x + y*i` (range `(-π, π]`, zero at the origin, matching C's
convention away from signed zeros). -/
def atan2 (y x : ℝ) : ℝ := Complex.arg ⟨x, y⟩

/-! ### Analog input shaping (`input_common.c`) -/

/-- `IN_StickMagnitude`. -/
def stickMagnitude (stick : Thumbstick) : ℝ :=
  Real.sqrt (stick.x * stick.x + stick.y * stick.y)

/-- `IN_MapRange`: scales `v` from `[deadzone, 1]` to `[0, 1]`, then
inherits the sign. -/
def mapRange (v deadzone sign : ℝ) : ℝ := (v - deadzone) / (1 - deadzone) * sign

/-- `IN_RadialDeadzone`: zero inside the (clamped) dead radius,
linear rescale of the remainder preserving direction; the magnitude
used for rescaling is clamped to 1. -/
def radialDeadzone (stick : Thumbstick) (deadzone : ℝ) : Thumbstick :=
  if min (stickMagnitude stick) 1 > min (max deadzone 0) 0.9 then
    ⟨stick.x * ((min (stickMagnitude stick) 1 - min (max deadzone 0) 0.9) /
        (1 - min (max deadzone 0) 0.9) / min (stickMagnitude stick) 1),
     stick.y * ((min (stickMagnitude stick) 1 - min (max deadzone 0) 0.9) /
        (1 - min (max deadzone 0) 0.9) / min (stickMagnitude stick) 1)⟩
  else ⟨0, 0⟩

/-- `copysignf(1.0f, v)` over the reals (no signed zero: zero maps to 1). -/
def signf (v : ℝ) : ℝ := if v < 0 then -1 else 1

/-- `IN_SlopedAxialDeadzone`: each axis is deadzoned by an amount
proportional to the other axis's magnitude. -/
def slopedAxialDeadzone (stick : Thumbstick) (deadzone : ℝ) : Thumbstick :=
  ⟨if |stick.x| > min deadzone 0.5 * |stick.y| then
      mapRange |stick.x| (min deadzone 0.5 * |stick.y|) (signf stick.x)
    else 0,
   if |stick.y| > min deadzone 0.5 * |stick.x| then
      mapRange |stick.y| (min deadzone 0.5 * |stick.x|) (signf stick.y)
    else 0⟩

/-- `IN_TightenInput`: gyro input below the tightening threshold
(`gyro_tightening` degrees in radians) is scaled by
`magnitude / threshold`. -/
def tightenInput (yaw pitch gyro_tightening : ℝ) : Thumbstick :=
  if stickMagnitude ⟨yaw, pitch⟩ < Real.pi / 180 * gyro_tightening then
    ⟨yaw * (stickMagnitude ⟨yaw, pitch⟩ / (Real.pi / 180 * gyro_tightening)),
     pitch * (stickMagnitude ⟨yaw, pitch⟩ / (Real.pi / 180 * gyro_tightening))⟩
  else ⟨yaw, pitch⟩

/-! ### Claim C7 -/

/-- C7: the radial deadzone returns exactly `{0,0}` when the stick
magnitude is at or below the deadzone value clamped to `[0, 0.9]`, and a
vector of magnitude 1 with deadzone 0 is returned unchanged. -/
theorem radial_deadzone_cutoff_and_unit :
    (∀ (stick : Thumbstick) (deadzone : ℝ),
      stickMagnitude stick ≤ min (max deadzone 0) 0.9 →
      radialDeadzone stick deadzone = ⟨0, 0⟩) ∧
    (∀ stick : Thumbstick, stickMagnitude stick = 1 →
      radialDeadzone stick 0 = stick) := by
  constructor
  · intro stick deadzone h
    have hmin : min (stickMagnitude stick) 1 ≤ min (max deadzone 0) 0.9 :=
      le_trans (min_le_left _ _) h
    rw [radialDeadzone, if_neg (not_lt.mpr hmin)]
  · intro stick h
    obtain ⟨sx, sy⟩ := stick
    rw [radialDeadzone]
    rw [show min (max (0:ℝ) 0) 0.9 = 0 by norm_num] at *
    rw [h]
    norm_num

/-- Witness for C7 at concrete inputs: the zero stick is suppressed at
deadzone 0.5, and the unit stick `(1, 0)` passes through at deadzone 0. -/
theorem radial_deadzone_cutoff_and_unit_witness :
    radialDeadzone ⟨0, 0⟩ 0.5 = ⟨0, 0⟩ ∧ radialDeadzone ⟨1, 0⟩ 0 = ⟨1, 0⟩ := by
  have hz : stickMagnitude ⟨0, 0⟩ = 0 := by
    simp [stickMagnitude]
  have ho : stickMagnitude ⟨1, 0⟩ = 1 := by
    simp [stickMagnitude]
  constructor
  · exact radial_deadzone_cutoff_and_unit.1 ⟨0, 0⟩ 0.5 (by rw [hz]; norm_num)
  · exact radial_deadzone_cutoff_and_unit.2 ⟨1, 0⟩ ho

/-! ### Claim C9 -/

/-- C9: a stick vector whose true magnitude is at least 1 passes through
the radial deadzone unchanged for every deadzone setting, because the
magnitude used for rescaling is clamped to 1 first. -/
theorem radial_deadzone_saturated_passthrough
    (stick : Thumbstick) (deadzone : ℝ) (h : 1 ≤ stickMagnitude stick) :
    radialDeadzone stick deadzone = stick := by
  obtain ⟨sx, sy⟩ := stick
  rw [radialDeadzone]
  have hm : min (stickMagnitude ⟨sx, sy⟩) 1 = 1 := min_eq_right h
  have hdz9 : min (max deadzone 0) 0.9 ≤ 0.9 := min_le_right _ _
  have hdz1 : min (max deadzone 0) 0.9 < 1 := lt_of_le_of_lt hdz9 (by norm_num)
  rw [hm, if_pos hdz1]
  have hne : 1 - min (max deadzone 0) 0.9 ≠ 0 := by linarith
  rw [div_self hne]
  norm_num

/-- Witness for C9: the stick `(1, 0)` (magnitude exactly 1) is returned
unchanged at deadzone 0.3. -/
theorem radial_deadzone_saturated_passthrough_witness :
    radialDeadzone ⟨1, 0⟩ 0.3 = ⟨1, 0⟩ := by
  refine radial_deadzone_saturated_passthrough ⟨1, 0⟩ 0.3 ?_
  have : stickMagnitude ⟨1, 0⟩ = 1 := by simp [stickMagnitude]
  rw [this]

/-! ### Claim C8 -/

/-- C8: when the combined gyro magnitude is strictly below the
tightening threshold, both components are scaled by
`magnitude / threshold`; at or above the threshold the input passes
through unchanged. -/
theorem tighten_input_scales_below_threshold (yaw pitch gyro_tightening : ℝ) :
    (stickMagnitude ⟨yaw, pitch⟩ < Real.pi / 180 * gyro_tightening →
      tightenInput yaw pitch gyro_tightening =
        ⟨yaw * (stickMagnitude ⟨yaw, pitch⟩ / (Real.pi / 180 * gyro_tightening)),
         pitch * (stickMagnitude ⟨yaw, pitch⟩ / (Real.pi / 180 * gyro_tightening))⟩) ∧
    (Real.pi / 180 * gyro_tightening ≤ stickMagnitude ⟨yaw, pitch⟩ →
      tightenInput yaw pitch gyro_tightening = ⟨yaw, pitch⟩) := by
  constructor
  · intro h
    rw [tightenInput, if_pos h]
  · intro h
    rw [tightenInput, if_neg (not_lt.mpr h)]

/-- Witness for C8: zero gyro input with tightening 1 degree is below
the threshold and maps to the (zero-scaled) zero output; input of
magnitude 1 with tightening 0 passes through. -/
theorem tighten_input_scales_below_threshold_witness :
    tightenInput 0 0 1 =
      ⟨0 * (stickMagnitude ⟨0, 0⟩ / (Real.pi / 180 * 1)),
       0 * (stickMagnitude ⟨0, 0⟩ / (Real.pi / 180 * 1))⟩ ∧
    tightenInput 1 0 0 = ⟨1, 0⟩ := by
  constructor
  · refine (tighten_input_scales_below_threshold 0 0 1).1 ?_
    have hz : stickMagnitude ⟨0, 0⟩ = 0 := by simp [stickMagnitude]
    rw [hz]
    have : (0:ℝ) < Real.pi / 180 * 1 := by positivity
    exact this
  · refine (tighten_input_scales_below_threshold 1 0 0).2 ?_
    have ho : stickMagnitude ⟨1, 0⟩ = 1 := by simp [stickMagnitude]
    rw [ho, mul_zero]
    norm_num

/-! ### Orientation tracker state (`gyro_tracker.c`) -/

/-- 2^64, the modulus of `uint64_t` arithmetic. -/
def U64 : ℕ := 18446744073709551616

/-- Reduction of a natural to the `uint64_t` range. -/
def wrap64 (n : ℕ) : ℕ := n % U64

/-- `uint64_t` subtraction `a - b` (wraps modulo 2^64). -/
def sub64 (a b : ℕ) : ℕ := (wrap64 a + U64 - wrap64 b) % U64

/-- The tracker's mutable state: the two orientation quaternions, the
cached angular velocity and the last-seen gyro and accelerometer
timestamps (`m_currentToInitial`, `m_initialToRecentre`, `m_lastAngVel`,
`m_lastGyroTimestamp`, `m_lastAccelerometerTimestamp`). -/
structure GyroState where
  currentToInitial : Quat
  initialToRecentre : Quat
  lastAngVel : Vec3
  lastGyroTimestamp : ℕ
  lastAccelerometerTimestamp : ℕ

/-- The initial state: both quaternions at identity `{0, 0, 0, 1}`,
zero cached velocity, zero timestamps. -/
def initState : GyroState :=
  { currentToInitial := ⟨0, 0, 0, 1⟩
    initialToRecentre := ⟨0, 0, 0, 1⟩
    lastAngVel := ⟨0, 0, 0⟩
    lastGyroTimestamp := 0
    lastAccelerometerTimestamp := 0 }

/-- `UNIT_X` from `gyro_tracker.c`. -/
def unitX : Vec3 := ⟨1, 0, 0⟩

/-- `UNIT_Y` from `gyro_tracker.c`. -/
def unitY : Vec3 := ⟨0, 1, 0⟩

/-- `UNIT_Z` from `gyro_tracker.c`. -/
def unitZ : Vec3 := ⟨0, 0, 1⟩

/-- The Euler increment integrated by `GyroTracker_PushGyroEvent` for a
non-stale sample: the trapezoid average of the cached and new angular
velocities times the elapsed seconds. -/
def gyroIntegratedEuler (s : GyroState) (timestampNS : ℕ) (angularVelocity : Vec3) : Vec3 :=
  mulVec3f (divVec3f (addVec3 s.lastAngVel angularVelocity) 2)
    ((sub64 timestampNS s.lastGyroTimestamp : ℕ) / 1e9)

/-- The incremental rotation quaternion composed from the Euler
increment (X-axis, then Y-axis, then Z-axis). -/
def gyroUpdateRotation (e : Vec3) : Quat :=
  mulQ (mulQ (fromAxisAngle unitX e.x) (fromAxisAngle unitY e.y)) (fromAxisAngle unitZ e.z)

/-- `GyroTracker_PushGyroEvent`: updates the timestamp, treats a gap of
more than 500ms (in wrapped `uint64_t` nanoseconds) as a discontinuity
(cache the velocity, no integration), otherwise right-composes the
integrated incremental rotation onto `currentToInitial`. -/
def pushGyroEvent (timestampNS : ℕ) (angularVelocity : Vec3) (s : GyroState) : GyroState :=
  if 500000000 < sub64 timestampNS s.lastGyroTimestamp then
    { s with lastGyroTimestamp := wrap64 timestampNS, lastAngVel := angularVelocity }
  else
    { s with
      lastGyroTimestamp := wrap64 timestampNS
      lastAngVel := angularVelocity
      currentToInitial :=
        mulQ s.currentToInitial
          (gyroUpdateRotation (gyroIntegratedEuler s timestampNS angularVelocity)) }

/-- `GyroTracker_PushAccelerometerEvent`: same staleness check; skips on
zero acceleration or a zero cross product, otherwise right-composes a
gravity-alignment correction scaled by the elapsed seconds. -/
def pushAccelerometerEvent (timestampNS : ℕ) (acceleration : Vec3) (s : GyroState) : GyroState :=
  if 500000000 < sub64 timestampNS s.lastAccelerometerTimestamp then
    { s with lastAccelerometerTimestamp := wrap64 timestampNS }
  else if lengthVec3 acceleration = 0 then
    { s with lastAccelerometerTimestamp := wrap64 timestampNS }
  else
    let gravity := divVec3f acceleration (lengthVec3 acceleration)
    let down := mulVec3f
      (getMatrixColumn (quaternionToMat4 (inverseQ s.currentToInitial)) 1) (-1)
    let cross := crossVec3 down gravity
    if lengthVec3 cross = 0 then
      { s with lastAccelerometerTimestamp := wrap64 timestampNS }
    else
      { s with
        lastAccelerometerTimestamp := wrap64 timestampNS
        currentToInitial :=
          mulQ s.currentToInitial
            (fromAxisAngle (divVec3f cross (lengthVec3 cross))
              (Real.arcsin (lengthVec3 cross) *
                ((sub64 timestampNS s.lastAccelerometerTimestamp : ℕ) / 1e9))) }

/-- The forward vector `GyroTracker_Recentre` decomposes: minus column 2
of the current-to-initial rotation matrix. -/
def recentreForwards (s : GyroState) : Vec3 :=
  mulVec3f (getMatrixColumn (quaternionToMat4 s.currentToInitial) 2) (-1)

/-- `GyroTracker_Recentre`: captures yaw (`atan2f(-x, -z)`) and pitch
(`asinf(y)`) of the forward vector, rebuilds a yaw-then-pitch rotation
and stores its inverse as `initialToRecentre`.  `currentToInitial` and
the sample caches are untouched. -/
def recentre (s : GyroState) : GyroState :=
  { s with
    initialToRecentre :=
      inverseQ (mulQ
        (fromAxisAngle unitY (atan2 (-(recentreForwards s).x) (-(recentreForwards s).z)))
        (fromAxisAngle unitX (Real.arcsin (recentreForwards s).y))) }

/-- `GyroTracker_GetForwards`: minus column 2 of the rotation matrix of
`initialToRecentre * currentToInitial`. -/
def getForwards (s : GyroState) : Vec3 :=
  mulVec3f
    (getMatrixColumn
      (quaternionToMat4 (mulQ s.initialToRecentre s.currentToInitial)) 2) (-1)

/-- States reachable from the initial state by any sequence of sensor
pushes and recentre calls. -/
inductive Reachable : GyroState → Prop
  | init : Reachable initState
  | gyro (s : GyroState) (t : ℕ) (v : Vec3) :
      Reachable s → Reachable (pushGyroEvent t v s)
  | accel (s : GyroState) (t : ℕ) (a : Vec3) :
      Reachable s → Reachable (pushAccelerometerEvent t a s)
  | recentre (s : GyroState) : Reachable s → Reachable (recentre s)

/-! ### Basic quaternion lemmas -/

/-- Right multiplication by the identity quaternion. -/
theorem mulQ_one (q : Quat) : mulQ q ⟨0, 0, 0, 1⟩ = q := by
  simp [mulQ]

/-- Left multiplication by the identity quaternion. -/
theorem one_mulQ (q : Quat) : mulQ ⟨0, 0, 0, 1⟩ q = q := by
  simp [mulQ]

/-- The length of `UNIT_X` is 1. -/
theorem lengthVec3_unitX : lengthVec3 unitX = 1 := by
  simp [lengthVec3, dotVec3, unitX]

/-- The length of `UNIT_Y` is 1. -/
theorem lengthVec3_unitY : lengthVec3 unitY = 1 := by
  simp [lengthVec3, dotVec3, unitY]

/-- The length of `UNIT_Z` is 1. -/
theorem lengthVec3_unitZ : lengthVec3 unitZ = 1 := by
  simp [lengthVec3, dotVec3, unitZ]

/-- Axis-angle quaternion about `UNIT_X` in closed form. -/
theorem fromAxisAngle_unitX (angle : ℝ) :
    fromAxisAngle unitX angle = ⟨Real.sin (angle / 2), 0, 0, Real.cos (angle / 2)⟩ := by
  rw [fromAxisAngle, normalizeVec3, if_neg (by rw [lengthVec3_unitX]; norm_num)]
  rw [lengthVec3_unitX]
  simp [unitX]

/-- Axis-angle quaternion about `UNIT_Y` in closed form. -/
theorem fromAxisAngle_unitY (angle : ℝ) :
    fromAxisAngle unitY angle = ⟨0, Real.sin (angle / 2), 0, Real.cos (angle / 2)⟩ := by
  rw [fromAxisAngle, normalizeVec3, if_neg (by rw [lengthVec3_unitY]; norm_num)]
  rw [lengthVec3_unitY]
  simp [unitY]

/-- Axis-angle quaternion about `UNIT_Z` in closed form. -/
theorem fromAxisAngle_unitZ (angle : ℝ) :
    fromAxisAngle unitZ angle = ⟨0, 0, Real.sin (angle / 2), Real.cos (angle / 2)⟩ := by
  rw [fromAxisAngle, normalizeVec3, if_neg (by rw [lengthVec3_unitZ]; norm_num)]
  rw [lengthVec3_unitZ]
  simp [unitZ]

/-- A zero rotation angle gives the identity quaternion, whatever the axis. -/
theorem fromAxisAngle_zero (axis : Vec3) : fromAxisAngle axis 0 = ⟨0, 0, 0, 1⟩ := by
  simp [fromAxisAngle]

/-- A zero Euler increment composes to the identity rotation. -/
theorem gyroUpdateRotation_zero : gyroUpdateRotation ⟨0, 0, 0⟩ = ⟨0, 0, 0, 1⟩ := by
  rw [gyroUpdateRotation]
  simp only [fromAxisAngle_zero, mulQ_one]

/-! ### Claim C3 -/

/-- C3: a gyro sample whose (wrapped) delta strictly exceeds 500ms
leaves `currentToInitial` unchanged while the cached velocity and the
gyro timestamp are updated to the new sample's values. -/
theorem pushGyro_stale_gap_no_integration (s : GyroState) (t : ℕ) (v : Vec3)
    (h : 500000000 < sub64 t s.lastGyroTimestamp) :
    pushGyroEvent t v s =
      { s with lastGyroTimestamp := wrap64 t, lastAngVel := v } := by
  rw [pushGyroEvent, if_pos h]

/-- Witness for C3: from the initial state, a sample at t = 1s is a
discontinuity (wrapped delta 10^9 ns > 5·10^8 ns). -/
theorem pushGyro_stale_gap_no_integration_witness :
    pushGyroEvent 1000000000 ⟨1, 2, 3⟩ initState =
      { initState with lastGyroTimestamp := wrap64 1000000000, lastAngVel := ⟨1, 2, 3⟩ } := by
  refine pushGyro_stale_gap_no_integration initState 1000000000 ⟨1, 2, 3⟩ ?_
  show 500000000 < sub64 1000000000 initState.lastGyroTimestamp
  simp only [initState, sub64, wrap64, U64]
  omega

/-! ### Claim C5 -/

/-- C5: `Recentre` is idempotent (recomputing from the unchanged
`currentToInitial` stores the same `initialToRecentre`), and a recentre
call never modifies `currentToInitial`, the cached angular velocity, or
either timestamp. -/
theorem recentre_idempotent_and_preserves (s : GyroState) :
    recentre (recentre s) = recentre s ∧
    (recentre s).currentToInitial = s.currentToInitial ∧
    (recentre s).lastAngVel = s.lastAngVel ∧
    (recentre s).lastGyroTimestamp = s.lastGyroTimestamp ∧
    (recentre s).lastAccelerometerTimestamp = s.lastAccelerometerTimestamp := by
  refine ⟨?_, rfl, rfl, rfl, rfl⟩
  rfl

/-! ### Claim C2 (corrected) -/

/-- A tracker state with a nonzero cached angular velocity, used to
refute C2 as stated. -/
def trapezoidState : GyroState :=
  { currentToInitial := ⟨0, 0, 0, 1⟩
    initialToRecentre := ⟨0, 0, 0, 1⟩
    lastAngVel := ⟨2, 0, 0⟩
    lastGyroTimestamp := 0
    lastAccelerometerTimestamp := 0 }

/-- Counterexample to C2 as stated: with cached angular velocity
`(2,0,0)` and a 500ms (non-stale) delta, pushing a zero angular velocity
still rotates `currentToInitial` — the trapezoid average with the cached
velocity is nonzero, so the integrated increment is not the identity. -/
theorem pushGyro_zero_angvel_counterexample :
    sub64 500000000 trapezoidState.lastGyroTimestamp ≤ 500000000 ∧
    (pushGyroEvent 500000000 ⟨0, 0, 0⟩ trapezoidState).currentToInitial ≠
      trapezoidState.currentToInitial := by
  have hsub : sub64 500000000 trapezoidState.lastGyroTimestamp = 500000000 := by
    simp [trapezoidState, sub64, wrap64, U64]
  constructor
  · rw [hsub]
  · rw [pushGyroEvent, if_neg (by rw [hsub]; norm_num)]
    have heuler : gyroIntegratedEuler trapezoidState 500000000 ⟨0, 0, 0⟩ = ⟨2⁻¹, 0, 0⟩ := by
      rw [gyroIntegratedEuler, hsub]
      simp only [trapezoidState, addVec3, divVec3f, mulVec3f]
      norm_num
    rw [heuler, gyroUpdateRotation]
    simp only [fromAxisAngle_unitX, fromAxisAngle_unitY, fromAxisAngle_unitZ]
    norm_num [Real.sin_zero, Real.cos_zero, mulQ_one, one_mulQ, mulQ, trapezoidState]
    intro habs
    have hpos : 0 < Real.sin (1 / 4) := by
      apply Real.sin_pos_of_pos_of_lt_pi
      · norm_num
      · linarith [Real.pi_gt_three]
    exact fun _ => absurd habs (ne_of_gt hpos)

/-- C2 amended: pushing a zero angular-velocity gyro sample with a
non-stale delta leaves `currentToInitial` unchanged provided the
previously cached angular velocity is also zero (the code integrates the
trapezoid average of the cached and new velocities, so a nonzero cached
velocity still produces a rotation). -/
theorem pushGyro_zero_angvel_amended (s : GyroState) (t : ℕ)
    (hv : s.lastAngVel = ⟨0, 0, 0⟩)
    (hd : sub64 t s.lastGyroTimestamp ≤ 500000000) :
    (pushGyroEvent t ⟨0, 0, 0⟩ s).currentToInitial = s.currentToInitial := by
  rw [pushGyroEvent, if_neg (not_lt.mpr hd)]
  have h0 : gyroIntegratedEuler s t ⟨0, 0, 0⟩ = ⟨0, 0, 0⟩ := by
    simp [gyroIntegratedEuler, hv, addVec3, divVec3f, mulVec3f]
  simp only [h0, gyroUpdateRotation_zero, mulQ_one]

/-- Witness for the amended C2: from the initial state (zero cached
velocity, zero delta) a zero sample leaves the orientation unchanged. -/
theorem pushGyro_zero_angvel_amended_witness :
    (pushGyroEvent 0 ⟨0, 0, 0⟩ initState).currentToInitial = initState.currentToInitial := by
  refine pushGyro_zero_angvel_amended initState 0 rfl ?_
  show sub64 0 initState.lastGyroTimestamp ≤ 500000000
  simp only [initState, sub64, wrap64, U64]
  omega

/-! ### Claim C10 (corrected) -/

/-- A tracker state whose last gyro timestamp is the largest
`uint64_t` value, used to refute C10 as stated. -/
def wrapEdgeState : GyroState :=
  { currentToInitial := ⟨0, 0, 0, 1⟩
    initialToRecentre := ⟨0, 0, 0, 1⟩
    lastAngVel := ⟨1, 0, 0⟩
    lastGyroTimestamp := 18446744073709551615
    lastAccelerometerTimestamp := 0 }

/-- Counterexample to C10 as stated: a gyro sample whose timestamp is
strictly earlier than the previous one, but earlier by almost the whole
`uint64_t` range, wraps to a delta of exactly 5·10^8 ns — not above the
staleness threshold — so the sample is integrated and rotates
`currentToInitial` rather than being treated as a discontinuity. -/
theorem out_of_order_wrap_counterexample :
    499999999 < wrapEdgeState.lastGyroTimestamp ∧
    sub64 499999999 wrapEdgeState.lastGyroTimestamp ≤ 500000000 ∧
    (pushGyroEvent 499999999 ⟨1, 0, 0⟩ wrapEdgeState).currentToInitial ≠
      wrapEdgeState.currentToInitial := by
  have hsub : sub64 499999999 wrapEdgeState.lastGyroTimestamp = 500000000 := by
    simp [wrapEdgeState, sub64, wrap64, U64]
  refine ⟨by simp [wrapEdgeState], by rw [hsub], ?_⟩
  rw [pushGyroEvent, if_neg (by rw [hsub]; norm_num)]
  have heuler : gyroIntegratedEuler wrapEdgeState 499999999 ⟨1, 0, 0⟩ = ⟨2⁻¹, 0, 0⟩ := by
    rw [gyroIntegratedEuler, hsub]
    simp only [wrapEdgeState, addVec3, divVec3f, mulVec3f]
    norm_num
  rw [heuler, gyroUpdateRotation]
  simp only [fromAxisAngle_unitX, fromAxisAngle_unitY, fromAxisAngle_unitZ]
  norm_num [Real.sin_zero, Real.cos_zero, mulQ_one, one_mulQ, mulQ, wrapEdgeState]
  intro habs
  have hpos : 0 < Real.sin (1 / 4) := by
    apply Real.sin_pos_of_pos_of_lt_pi
    · norm_num
    · linarith [Real.pi_gt_three]
  exact fun _ => absurd habs (ne_of_gt hpos)

/-- C10 amended: an out-of-order sample (timestamp strictly earlier than
the previously recorded one, by less than 2^64 − 5·10^8 ns — i.e. any
backwards step that does not wrap back inside the staleness window)
makes the unsigned 64-bit delta wrap to a value exceeding the 500ms
threshold, so it is treated as a discontinuity: the gyro path caches
only the new velocity and timestamp, the accelerometer path only the
new timestamp, and neither touches `currentToInitial`. -/
theorem out_of_order_treated_as_discontinuity (s : GyroState) (t : ℕ) (v a : Vec3)
    (hgT : s.lastGyroTimestamp < U64) (haT : s.lastAccelerometerTimestamp < U64) :
    (t < s.lastGyroTimestamp → s.lastGyroTimestamp - t < U64 - 500000000 →
      500000000 < sub64 t s.lastGyroTimestamp ∧
      pushGyroEvent t v s = { s with lastGyroTimestamp := wrap64 t, lastAngVel := v }) ∧
    (t < s.lastAccelerometerTimestamp →
      s.lastAccelerometerTimestamp - t < U64 - 500000000 →
      500000000 < sub64 t s.lastAccelerometerTimestamp ∧
      pushAccelerometerEvent t a s = { s with lastAccelerometerTimestamp := wrap64 t }) := by
  constructor
  · intro hlt hgap
    have hs : 500000000 < sub64 t s.lastGyroTimestamp := by
      simp only [sub64, wrap64, U64] at *
      omega
    exact ⟨hs, by rw [pushGyroEvent, if_pos hs]⟩
  · intro hlt hgap
    have hs : 500000000 < sub64 t s.lastAccelerometerTimestamp := by
      simp only [sub64, wrap64, U64] at *
      omega
    exact ⟨hs, by rw [pushAccelerometerEvent, if_pos hs]⟩

/-- A state with both previous timestamps at 10^9 ns, for the C10
witness. -/
def gapBackState : GyroState :=
  { currentToInitial := ⟨0, 0, 0, 1⟩
    initialToRecentre := ⟨0, 0, 0, 1⟩
    lastAngVel := ⟨0, 0, 0⟩
    lastGyroTimestamp := 1000000000
    lastAccelerometerTimestamp := 1000000000 }

/-- Witness for the amended C10: sample at t = 0 after previous
timestamps of 10^9 ns on both streams. -/
theorem out_of_order_treated_as_discontinuity_witness :
    (500000000 < sub64 0 gapBackState.lastGyroTimestamp ∧
      pushGyroEvent 0 ⟨1, 2, 3⟩ gapBackState =
        { gapBackState with lastGyroTimestamp := wrap64 0, lastAngVel := ⟨1, 2, 3⟩ }) ∧
    (500000000 < sub64 0 gapBackState.lastAccelerometerTimestamp ∧
      pushAccelerometerEvent 0 ⟨4, 5, 6⟩ gapBackState =
        { gapBackState with lastAccelerometerTimestamp := wrap64 0 }) := by
  have h := out_of_order_treated_as_discontinuity gapBackState 0 ⟨1, 2, 3⟩ ⟨4, 5, 6⟩
    (by simp [gapBackState, U64]) (by simp [gapBackState, U64])
  exact ⟨h.1 (by simp [gapBackState]) (by simp [gapBackState, U64]),
         h.2 (by simp [gapBackState]) (by simp [gapBackState, U64])⟩

/-! ### Flick stick (`input_common.c`) -/

/-- Truncation toward zero, as C's float-to-integer conversion inside
`fmod`. -/
def truncToward0 (x : ℝ) : ℤ := if x < 0 then Int.ceil x else Int.floor x

/-- C's `fmod`: remainder with the quotient truncated toward zero. -/
def cFmod (x y : ℝ) : ℝ := x - y * (truncToward0 (x / y) : ℝ)

/-- The flick stick's persistent state: the statics of `IN_FlickStick`
(`is_flicking`, `last_stick_angle`), the file-scope flick variables
(`target_angle`, `flick_progress`) and the smoothing buffer
(`flick_samples`, `front_sample`). -/
structure FlickState where
  is_flicking : Bool
  last_stick_angle : ℝ
  target_angle : ℝ
  flick_progress : ℕ
  front_sample : ℕ
  flick_samples : ℕ → ℝ

/-- `IN_ResetSmoothSamples`: zero the circular buffer and its cursor. -/
def resetSmoothSamples (st : FlickState) : FlickState :=
  { st with front_sample := 0, flick_samples := fun _ => 0 }

/-- `IN_SmoothedStickRotation`: soft tiered smoothing over an 8-entry
circular buffer; returns the smoothed rotation and the updated state. -/
def smoothedStickRotation (top_threshold value : ℝ) (st : FlickState) : ℝ × FlickState :=
  if top_threshold = 0 then (value, st)
  else
    let fs := (st.front_sample + 1) % 8
    let immediate_weight :=
      min (max ((|value| - top_threshold / 2) / (top_threshold - top_threshold / 2)) 0) 1
    let samples := fun i => if i = fs then value * (1 - immediate_weight) else st.flick_samples i
    ((samples 0 + samples 1 + samples 2 + samples 3 +
      samples 4 + samples 5 + samples 6 + samples 7) / 8 + value * immediate_weight,
     { st with front_sample := fs, flick_samples := samples })

/-- `IN_FlickStick`: detects the start of a flick (arming the target
angle and the 6-frame progress counter) or returns the smoothed
incremental rotation while already flicking; parameters are the
`joy_flick_threshold` and `joy_flick_smoothed` cvar values. -/
def inFlickStick (stick : Thumbstick)
    (axial_deadzone flick_threshold flick_smoothed : ℝ) (st : FlickState) :
    ℝ × FlickState :=
  if stickMagnitude stick > min flick_threshold 1 then
    let processed :=
      if st.is_flicking = false ∨ st.flick_progress < 6 then
        slopedAxialDeadzone stick axial_deadzone
      else stick
    let stick_angle := 180 / Real.pi * atan2 (-processed.x) (-processed.y)
    if st.is_flicking = false then
      (0, { resetSmoothSamples st with
            is_flicking := true
            flick_progress := 0
            target_angle := stick_angle
            last_stick_angle := stick_angle })
    else
      let raw := stick_angle - st.last_stick_angle
      let wrapped :=
        (if cFmod (raw + 180) 360 < 0 then cFmod (raw + 180) 360 + 360
         else cFmod (raw + 180) 360) - 180
      let sm := smoothedStickRotation flick_smoothed wrapped st
      (sm.1, { sm.2 with last_stick_angle := stick_angle })
  else
    (0, { st with is_flicking := false })

/-- The `rotation_factor` ease-out table of `IN_Common_Move`
(index 0 to 5; out-of-range indices are never read). -/
def rotation_factor : ℕ → ℝ
  | 0 => 0.305555556
  | 1 => 0.249999999
  | 2 => 0.194444445
  | 3 => 0.138888889
  | 4 => 0.083333333
  | 5 => 0.027777778
  | _ => 0

/-- The flick ease-out tail of `IN_Common_Move`: while a flick is in
progress (fewer than 6 frames applied), add one weighted share of the
target angle to the yaw and advance the progress counter. -/
def flickEaseOutStep (p : ℝ × FlickState) : ℝ × FlickState :=
  if p.2.flick_progress < 6 then
    (p.1 + p.2.target_angle * rotation_factor p.2.flick_progress,
     { p.2 with flick_progress := p.2.flick_progress + 1 })
  else p

/-! ### Claim C6 -/

/-- C6: beginning a flick (magnitude above the threshold while not
already flicking) arms a fresh 6-frame rotation at the target angle
taken from the stick direction; the six ease-out weights sum exactly
to 1, so six ease-out frames add exactly the target angle to the yaw
and a seventh frame adds nothing. -/
theorem flick_easeout_totals_target :
    (∀ (stick : Thumbstick) (ad thr sm : ℝ) (st : FlickState),
      stickMagnitude stick > min thr 1 → st.is_flicking = false →
      (inFlickStick stick ad thr sm st).1 = 0 ∧
      (inFlickStick stick ad thr sm st).2.is_flicking = true ∧
      (inFlickStick stick ad thr sm st).2.flick_progress = 0 ∧
      (inFlickStick stick ad thr sm st).2.target_angle =
        180 / Real.pi * atan2 (-(slopedAxialDeadzone stick ad).x)
          (-(slopedAxialDeadzone stick ad).y)) ∧
    (rotation_factor 0 + rotation_factor 1 + rotation_factor 2 +
      rotation_factor 3 + rotation_factor 4 + rotation_factor 5 = 1) ∧
    (∀ (yaw : ℝ) (st : FlickState), st.flick_progress = 0 →
      (flickEaseOutStep (flickEaseOutStep (flickEaseOutStep (flickEaseOutStep
        (flickEaseOutStep (flickEaseOutStep (yaw, st))))))).1 = yaw + st.target_angle ∧
      (flickEaseOutStep (flickEaseOutStep (flickEaseOutStep (flickEaseOutStep
        (flickEaseOutStep (flickEaseOutStep (flickEaseOutStep (yaw, st)))))))).1 =
      (flickEaseOutStep (flickEaseOutStep (flickEaseOutStep (flickEaseOutStep
        (flickEaseOutStep (flickEaseOutStep (yaw, st))))))).1) := by
  refine ⟨?_, by norm_num [rotation_factor], ?_⟩
  · intro stick ad thr sm st hmag hnot
    rw [inFlickStick, if_pos hmag, hnot]
    simp [resetSmoothSamples]
  · intro yaw st h0
    obtain ⟨fl, lsa, ta, fp, fs, samp⟩ := st
    simp only at h0
    subst h0
    constructor
    · simp only [flickEaseOutStep, rotation_factor]
      norm_num
      ring_nf
    · simp only [flickEaseOutStep, rotation_factor]
      norm_num

/-- Witness for C6: a full upward deflection `(0, 1)` at the default
flick threshold 0.65 begins a flick from an idle state, and the ease-out
from progress 0 adds exactly the target angle. -/
theorem flick_easeout_totals_target_witness :
    ((inFlickStick ⟨0, 1⟩ 0.15 0.65 8 ⟨false, 0, 0, 6, 0, fun _ => 0⟩).1 = 0 ∧
     (inFlickStick ⟨0, 1⟩ 0.15 0.65 8 ⟨false, 0, 0, 6, 0, fun _ => 0⟩).2.is_flicking = true ∧
     (inFlickStick ⟨0, 1⟩ 0.15 0.65 8 ⟨false, 0, 0, 6, 0, fun _ => 0⟩).2.flick_progress = 0 ∧
     (inFlickStick ⟨0, 1⟩ 0.15 0.65 8 ⟨false, 0, 0, 6, 0, fun _ => 0⟩).2.target_angle =
       180 / Real.pi * atan2 (-(slopedAxialDeadzone ⟨0, 1⟩ 0.15).x)
         (-(slopedAxialDeadzone ⟨0, 1⟩ 0.15).y)) ∧
    (flickEaseOutStep (flickEaseOutStep (flickEaseOutStep (flickEaseOutStep
      (flickEaseOutStep (flickEaseOutStep (0, ⟨true, 0, 90, 0, 0, fun _ => 0⟩))))))).1 =
      0 + (90 : ℝ) := by
  constructor
  · refine flick_easeout_totals_target.1 ⟨0, 1⟩ 0.15 0.65 8 ⟨false, 0, 0, 6, 0, fun _ => 0⟩ ?_ rfl
    have h1 : stickMagnitude ⟨0, 1⟩ = 1 := by simp [stickMagnitude]
    rw [h1]
    norm_num
  · exact (flick_easeout_totals_target.2.2 0 ⟨true, 0, 90, 0, 0, fun _ => 0⟩ rfl).1

/-! ### Unit-quaternion invariant -/

/-- The self dot product of a vector is nonnegative. -/
theorem dotVec3_self_nonneg (a : Vec3) : 0 ≤ dotVec3 a a := by
  have hx := mul_self_nonneg a.x
  have hy := mul_self_nonneg a.y
  have hz := mul_self_nonneg a.z
  rw [dotVec3]
  linarith

/-- The squared length recovers the self dot product. -/
theorem lengthVec3_mul_self (a : Vec3) :
    lengthVec3 a * lengthVec3 a = dotVec3 a a :=
  Real.mul_self_sqrt (dotVec3_self_nonneg a)

/-- The quaternion squared norm is multiplicative (Lagrange identity). -/
theorem quatDot_mulQ (a b : Quat) :
    quatDot (mulQ a b) (mulQ a b) = quatDot a a * quatDot b b := by
  simp only [mulQ, quatDot]
  ring

/-- An axis-angle quaternion on a nonzero axis is a unit quaternion. -/
theorem quatDot_fromAxisAngle (axis : Vec3) (angle : ℝ) (h : lengthVec3 axis ≠ 0) :
    quatDot (fromAxisAngle axis angle) (fromAxisAngle axis angle) = 1 := by
  rw [fromAxisAngle, normalizeVec3, if_neg h]
  simp only [quatDot]
  have hL := lengthVec3_mul_self axis
  have hs := Real.sin_sq_add_cos_sq (angle / 2)
  rw [dotVec3] at hL
  field_simp
  nlinarith [hs, hL]

/-- Normalising a vector by its own (nonzero) length yields a unit
vector. -/
theorem lengthVec3_div_self (v : Vec3) (h : lengthVec3 v ≠ 0) :
    lengthVec3 (divVec3f v (lengthVec3 v)) = 1 := by
  have hL := lengthVec3_mul_self v
  rw [dotVec3] at hL
  have h1 : dotVec3 (divVec3f v (lengthVec3 v)) (divVec3f v (lengthVec3 v)) = 1 := by
    rw [divVec3f, dotVec3]
    field_simp
    linarith [hL]
  rw [lengthVec3, h1, Real.sqrt_one]

/-- The gyro incremental rotation is always a unit quaternion. -/
theorem gyroUpdateRotation_unit (e : Vec3) :
    quatDot (gyroUpdateRotation e) (gyroUpdateRotation e) = 1 := by
  rw [gyroUpdateRotation, quatDot_mulQ, quatDot_mulQ,
    quatDot_fromAxisAngle unitX e.x (by rw [lengthVec3_unitX]; norm_num),
    quatDot_fromAxisAngle unitY e.y (by rw [lengthVec3_unitY]; norm_num),
    quatDot_fromAxisAngle unitZ e.z (by rw [lengthVec3_unitZ]; norm_num)]
  norm_num

/-- Inverting a unit quaternion is conjugation. -/
theorem inverseQ_unit (q : Quat) (h : quatDot q q = 1) : inverseQ q = conjQ q := by
  simp [inverseQ, conjQ, h, Real.sqrt_one]

/-- Conjugation preserves the squared norm. -/
theorem quatDot_conjQ (q : Quat) : quatDot (conjQ q) (conjQ q) = quatDot q q := by
  simp only [conjQ, quatDot]
  ring

/-- The yaw-then-pitch rotation built by `GyroTracker_Recentre` is a
unit quaternion. -/
theorem recentreRotation_unit (yaw pitch : ℝ) :
    quatDot (mulQ (fromAxisAngle unitY yaw) (fromAxisAngle unitX pitch))
      (mulQ (fromAxisAngle unitY yaw) (fromAxisAngle unitX pitch)) = 1 := by
  rw [quatDot_mulQ,
    quatDot_fromAxisAngle unitY yaw (by rw [lengthVec3_unitY]; norm_num),
    quatDot_fromAxisAngle unitX pitch (by rw [lengthVec3_unitX]; norm_num)]
  norm_num

/-- Both orientation quaternions are unit quaternions. -/
def UnitQuats (s : GyroState) : Prop :=
  quatDot s.currentToInitial s.currentToInitial = 1 ∧
  quatDot s.initialToRecentre s.initialToRecentre = 1

/-- Every reachable tracker state keeps both quaternions at unit norm. -/
theorem reachable_unitQuats (s : GyroState) (h : Reachable s) : UnitQuats s := by
  induction h with
  | init =>
    constructor <;> norm_num [initState, quatDot]
  | gyro s t v _ ih =>
    rw [pushGyroEvent]
    split
    · exact ⟨ih.1, ih.2⟩
    · refine ⟨?_, ih.2⟩
      show quatDot (mulQ s.currentToInitial _) (mulQ s.currentToInitial _) = 1
      rw [quatDot_mulQ, ih.1, gyroUpdateRotation_unit]
      norm_num
  | accel s t a _ ih =>
    rw [pushAccelerometerEvent]
    split
    · exact ⟨ih.1, ih.2⟩
    · split
      · exact ⟨ih.1, ih.2⟩
      · dsimp only
        split
        · exact ⟨ih.1, ih.2⟩
        · rename_i h1 h2 h3
          refine ⟨?_, ih.2⟩
          show quatDot (mulQ s.currentToInitial _) (mulQ s.currentToInitial _) = 1
          rw [quatDot_mulQ, ih.1,
            quatDot_fromAxisAngle _ _ (by rw [lengthVec3_div_self _ h3]; norm_num)]
          norm_num
  | recentre s _ ih =>
    refine ⟨ih.1, ?_⟩
    show quatDot (inverseQ _) (inverseQ _) = 1
    rw [inverseQ_unit _ (recentreRotation_unit _ _), quatDot_conjQ,
      recentreRotation_unit]

/-! ### The forward vector -/

/-- Normalising a unit quaternion changes nothing. -/
theorem normalizeQ_unit (q : Quat) (h : quatDot q q = 1) : normalizeQ q = q := by
  simp [normalizeQ, h, Real.sqrt_one]

/-- Column 2 of the rotation matrix, in closed form. -/
theorem col2_eval (q : Quat) :
    getMatrixColumn (quaternionToMat4 q) 2 =
      ⟨2 * ((normalizeQ q).x * (normalizeQ q).z + (normalizeQ q).w * (normalizeQ q).y),
       2 * ((normalizeQ q).y * (normalizeQ q).z - (normalizeQ q).w * (normalizeQ q).x),
       1 - 2 * ((normalizeQ q).x * (normalizeQ q).x + (normalizeQ q).y * (normalizeQ q).y)⟩ :=
  rfl

/-- Column 1 of the rotation matrix, in closed form. -/
theorem col1_eval (q : Quat) :
    getMatrixColumn (quaternionToMat4 q) 1 =
      ⟨2 * ((normalizeQ q).x * (normalizeQ q).y - (normalizeQ q).w * (normalizeQ q).z),
       1 - 2 * ((normalizeQ q).x * (normalizeQ q).x + (normalizeQ q).z * (normalizeQ q).z),
       2 * ((normalizeQ q).y * (normalizeQ q).z + (normalizeQ q).w * (normalizeQ q).x)⟩ :=
  rfl

/-- For a unit quaternion, column 2 of its rotation matrix is a unit
vector. -/
theorem col2_dot_self (q : Quat) (h : quatDot q q = 1) :
    dotVec3 (getMatrixColumn (quaternionToMat4 q) 2)
      (getMatrixColumn (quaternionToMat4 q) 2) = 1 := by
  rw [col2_eval, normalizeQ_unit q h]
  rw [quatDot] at h
  simp only [dotVec3]
  linear_combination (4 * (q.x * q.x + q.y * q.y)) * h

/-- Negating a vector preserves its length. -/
theorem lengthVec3_negOne (v : Vec3) :
    lengthVec3 (mulVec3f v (-1)) = lengthVec3 v := by
  rw [lengthVec3, lengthVec3, mulVec3f, dotVec3, dotVec3]
  norm_num

/-- For any state with unit quaternions, the forward vector has length
exactly 1. -/
theorem getForwards_length (s : GyroState) (h : UnitQuats s) :
    lengthVec3 (getForwards s) = 1 := by
  rw [getForwards, lengthVec3_negOne, lengthVec3,
    col2_dot_self _ (by rw [quatDot_mulQ, h.1, h.2]; norm_num), Real.sqrt_one]

/-- Before any sample, the forward vector is the canonical direction
`(0, 0, -1)`. -/
theorem getForwards_init : getForwards initState = ⟨0, 0, -1⟩ := by
  rw [getForwards]
  have hm : mulQ initState.initialToRecentre initState.currentToInitial = ⟨0, 0, 0, 1⟩ :=
    mulQ_one _
  rw [hm, col2_eval, normalizeQ_unit _ (by norm_num [quatDot])]
  simp [mulVec3f]

/-! ### Claim C1 -/

/-- C1: for every sequence of pushed samples (and recentre calls), the
forward vector has length exactly 1 — in particular it is neither a NaN
(real-valued model) nor zero-length — and before any sample it is the
canonical forward direction `(0, 0, -1)`. -/
theorem getForwards_never_degenerate :
    (∀ s : GyroState, Reachable s →
      lengthVec3 (getForwards s) = 1 ∧ getForwards s ≠ ⟨0, 0, 0⟩) ∧
    getForwards initState = ⟨0, 0, -1⟩ := by
  refine ⟨fun s hs => ?_, getForwards_init⟩
  have hl := getForwards_length s (reachable_unitQuats s hs)
  refine ⟨hl, fun hz => ?_⟩
  rw [hz] at hl
  rw [lengthVec3] at hl
  norm_num [dotVec3] at hl

/-- Witness for C1 at the initial (reachable) state. -/
theorem getForwards_never_degenerate_witness :
    lengthVec3 (getForwards initState) = 1 ∧ getForwards initState ≠ ⟨0, 0, 0⟩ :=
  getForwards_never_degenerate.1 initState Reachable.init

/-! ### Rotation action of a quaternion (for claim C4) -/

/-- A pure (vector) quaternion. -/
def pureQ (v : Vec3) : Quat := ⟨v.x, v.y, v.z, 0⟩

/-- The conjugation action `q * v * conj q`, the rotation a unit
quaternion applies to a vector. -/
def rotAct (q : Quat) (v : Vec3) : Vec3 :=
  ⟨(mulQ (mulQ q (pureQ v)) (conjQ q)).x,
   (mulQ (mulQ q (pureQ v)) (conjQ q)).y,
   (mulQ (mulQ q (pureQ v)) (conjQ q)).z⟩

/-- The conjugation action is multiplicative in the quaternion. -/
theorem rotAct_mul (u v : Quat) (w : Vec3) :
    rotAct (mulQ u v) w = rotAct u (rotAct v w) := by
  simp only [rotAct, pureQ, conjQ, mulQ]
  congr 1 <;> ring

/-- The identity quaternion acts as the identity. -/
theorem rotAct_one (v : Vec3) : rotAct ⟨0, 0, 0, 1⟩ v = v := by
  have h : rotAct ⟨0, 0, 0, 1⟩ v = ⟨v.x, v.y, v.z⟩ := by
    simp only [rotAct, pureQ, conjQ, mulQ]
    congr 1 <;> ring
  rw [h]

/-- The action commutes with pointwise negation of the vector. -/
theorem rotAct_negOne (q : Quat) (v : Vec3) :
    rotAct q (mulVec3f v (-1)) = mulVec3f (rotAct q v) (-1) := by
  simp only [rotAct, pureQ, conjQ, mulQ, mulVec3f]
  congr 1 <;> ring

/-- Negating a vector twice gives it back. -/
theorem mulVec3f_negOne_negOne (v : Vec3) :
    mulVec3f (mulVec3f v (-1)) (-1) = v := by
  have h : mulVec3f (mulVec3f v (-1)) (-1) = ⟨v.x, v.y, v.z⟩ := by
    simp only [mulVec3f]
    congr 1 <;> ring
  rw [h]

/-- A quaternion conjugated with itself on the left gives its squared
norm as a scalar quaternion. -/
theorem conjQ_mulQ_self (q : Quat) :
    mulQ (conjQ q) q = ⟨0, 0, 0, quatDot q q⟩ := by
  simp only [conjQ, mulQ, quatDot]
  congr 1 <;> ring

/-- For a unit quaternion, column 2 of its rotation matrix is the action
on the Z axis. -/
theorem col2_eq_rotAct (q : Quat) (h : quatDot q q = 1) :
    getMatrixColumn (quaternionToMat4 q) 2 = rotAct q ⟨0, 0, 1⟩ := by
  rw [col2_eval, normalizeQ_unit q h]
  rw [quatDot] at h
  simp only [rotAct, pureQ, conjQ, mulQ]
  congr 1
  · ring
  · ring
  · linear_combination (-1) * h

/-- Action of an X-axis rotation, in terms of the full angle. -/
theorem rotAct_axisX (p a b c : ℝ) :
    rotAct (fromAxisAngle unitX p) ⟨a, b, c⟩ =
      ⟨a, Real.cos p * b - Real.sin p * c, Real.sin p * b + Real.cos p * c⟩ := by
  rw [fromAxisAngle_unitX]
  have hs := Real.sin_sq_add_cos_sq (p / 2)
  have h1 : Real.sin p = 2 * Real.sin (p / 2) * Real.cos (p / 2) := by
    have := Real.sin_two_mul (p / 2)
    rwa [show 2 * (p / 2) = p by ring] at this
  have h2 : Real.cos p = 2 * Real.cos (p / 2) ^ 2 - 1 := by
    have := Real.cos_two_mul (p / 2)
    rwa [show 2 * (p / 2) = p by ring] at this
  simp only [rotAct, pureQ, conjQ, mulQ]
  congr 1
  · linear_combination a * hs
  · rw [h1, h2]
    linear_combination (-b) * hs
  · rw [h1, h2]
    linear_combination (-c) * hs

/-- Action of a Y-axis rotation, in terms of the full angle. -/
theorem rotAct_axisY (y a b c : ℝ) :
    rotAct (fromAxisAngle unitY y) ⟨a, b, c⟩ =
      ⟨Real.cos y * a + Real.sin y * c, b, -(Real.sin y * a) + Real.cos y * c⟩ := by
  rw [fromAxisAngle_unitY]
  have hs := Real.sin_sq_add_cos_sq (y / 2)
  have h1 : Real.sin y = 2 * Real.sin (y / 2) * Real.cos (y / 2) := by
    have := Real.sin_two_mul (y / 2)
    rwa [show 2 * (y / 2) = y by ring] at this
  have h2 : Real.cos y = 2 * Real.cos (y / 2) ^ 2 - 1 := by
    have := Real.cos_two_mul (y / 2)
    rwa [show 2 * (y / 2) = y by ring] at this
  simp only [rotAct, pureQ, conjQ, mulQ]
  congr 1
  · rw [h1, h2]
    linear_combination (-a) * hs
  · linear_combination b * hs
  · rw [h1, h2]
    linear_combination (-c) * hs

/-! ### atan2 facts -/

/-- The sine of `atan2 y x` times the radius recovers `y` (also at the
origin, where both sides vanish). -/
theorem sin_atan2_mul (y x : ℝ) :
    Real.sin (atan2 y x) * Real.sqrt (x ^ 2 + y ^ 2) = y := by
  rw [atan2, Complex.sin_arg]
  have habs : Complex.abs ⟨x, y⟩ = Real.sqrt (x ^ 2 + y ^ 2) := by
    rw [Complex.abs_apply, Complex.normSq_mk]
    ring_nf
  rw [habs]
  show y / Real.sqrt (x ^ 2 + y ^ 2) * Real.sqrt (x ^ 2 + y ^ 2) = y
  rcases eq_or_ne (Real.sqrt (x ^ 2 + y ^ 2)) 0 with h0 | h0
  · have hnn : (0:ℝ) ≤ x ^ 2 + y ^ 2 := by positivity
    have hz : x ^ 2 + y ^ 2 = 0 := by rwa [Real.sqrt_eq_zero hnn] at h0
    have hy : y = 0 := by nlinarith [sq_nonneg x, sq_nonneg y]
    rw [h0, hy, mul_zero]
  · rw [div_mul_cancel₀ _ h0]

/-- The cosine of `atan2 y x` times the radius recovers `x` (also at the
origin, where both sides vanish). -/
theorem cos_atan2_mul (y x : ℝ) :
    Real.cos (atan2 y x) * Real.sqrt (x ^ 2 + y ^ 2) = x := by
  rcases eq_or_ne (⟨x, y⟩ : ℂ) 0 with hz | hz
  · have hx : x = 0 := congrArg Complex.re hz
    have hy : y = 0 := congrArg Complex.im hz
    rw [atan2, hz, Complex.arg_zero, hx, hy]
    norm_num
  · rw [atan2, Complex.cos_arg hz]
    have habs : Complex.abs ⟨x, y⟩ = Real.sqrt (x ^ 2 + y ^ 2) := by
      rw [Complex.abs_apply, Complex.normSq_mk]
      ring_nf
    have hne : Real.sqrt (x ^ 2 + y ^ 2) ≠ 0 := by
      rw [← habs]
      exact Complex.abs.ne_zero hz
    rw [habs]
    show x / Real.sqrt (x ^ 2 + y ^ 2) * Real.sqrt (x ^ 2 + y ^ 2) = x
    rw [div_mul_cancel₀ _ hne]

/-- `atan2 0 1 = 0`. -/
theorem atan2_zero_one : atan2 0 1 = 0 := by
  rw [atan2]
  have h1 : (⟨1, 0⟩ : ℂ) = 1 := by
    refine Complex.ext ?_ ?_ <;> norm_num
  rw [h1, Complex.arg_one]

/-! ### Claim C4 -/

/-- Negating a vector preserves the self dot product. -/
theorem dotVec3_mulVec3f_negOne (v : Vec3) :
    dotVec3 (mulVec3f v (-1)) (mulVec3f v (-1)) = dotVec3 v v := by
  simp only [mulVec3f, dotVec3]
  ring

/-- Core of claim C4: conjugating by the yaw-then-pitch rotation that
`Recentre` extracts from the forward vector maps the Z axis back to the
Z axis, for any unit orientation quaternion. -/
theorem recentre_rotation_cancels (q : Quat) (f : Vec3)
    (hf : rotAct q ⟨0, 0, 1⟩ = mulVec3f f (-1))
    (hfd : dotVec3 f f = 1) :
    rotAct (mulQ (conjQ (mulQ (fromAxisAngle unitY (atan2 (-f.x) (-f.z)))
      (fromAxisAngle unitX (Real.arcsin f.y)))) q) ⟨0, 0, 1⟩ = ⟨0, 0, 1⟩ := by
  set yw := atan2 (-f.x) (-f.z) with hyw
  set pt := Real.arcsin f.y with hpt
  have hsum : f.x ^ 2 + f.y ^ 2 + f.z ^ 2 = 1 := by
    rw [dotVec3] at hfd
    linear_combination hfd
  have hy1 : -1 ≤ f.y := by nlinarith [sq_nonneg f.x, sq_nonneg f.z, sq_nonneg (f.y + 1)]
  have hy2 : f.y ≤ 1 := by nlinarith [sq_nonneg f.x, sq_nonneg f.z, sq_nonneg (f.y - 1)]
  have hsp : Real.sin pt = f.y := Real.sin_arcsin hy1 hy2
  have hcp : Real.cos pt = Real.sqrt (f.x ^ 2 + f.z ^ 2) := by
    rw [hpt, Real.cos_arcsin]
    congr 1
    linarith
  have hsy : Real.sin yw * Real.sqrt (f.x ^ 2 + f.z ^ 2) = -f.x := by
    have h1 := sin_atan2_mul (-f.x) (-f.z)
    rwa [show (-f.z) ^ 2 + (-f.x) ^ 2 = f.x ^ 2 + f.z ^ 2 by ring] at h1
  have hcy : Real.cos yw * Real.sqrt (f.x ^ 2 + f.z ^ 2) = -f.z := by
    have h1 := cos_atan2_mul (-f.x) (-f.z)
    rwa [show (-f.z) ^ 2 + (-f.x) ^ 2 = f.x ^ 2 + f.z ^ 2 by ring] at h1
  have hru : quatDot (mulQ (fromAxisAngle unitY yw) (fromAxisAngle unitX pt))
      (mulQ (fromAxisAngle unitY yw) (fromAxisAngle unitX pt)) = 1 :=
    recentreRotation_unit yw pt
  have hA : rotAct (mulQ (fromAxisAngle unitY yw) (fromAxisAngle unitX pt)) ⟨0, 0, -1⟩ = f := by
    rw [rotAct_mul, rotAct_axisX, rotAct_axisY]
    conv_rhs => rw [show f = (⟨f.x, f.y, f.z⟩ : Vec3) from rfl]
    congr 1
    · rw [hcp]
      linear_combination (-1) * hsy
    · linear_combination hsp
    · rw [hcp]
      linear_combination (-1) * hcy
  have hcf : rotAct (conjQ (mulQ (fromAxisAngle unitY yw) (fromAxisAngle unitX pt))) f =
      ⟨0, 0, -1⟩ := by
    rw [← hA, ← rotAct_mul, conjQ_mulQ_self, hru, rotAct_one]
  rw [rotAct_mul, hf, rotAct_negOne, hcf]
  norm_num [mulVec3f]

/-- C4: after `Recentre()`, the forward vector returned by
`GetForwards()` has yaw (`atan2f(-x, -z)`) and pitch (`asinf(y)`)
exactly zero, for any state whose orientation quaternion is unit
(which every reachable state is), regardless of the roll it contains. -/
theorem recentre_then_getForwards_zero_yaw_pitch (s : GyroState)
    (h : quatDot s.currentToInitial s.currentToInitial = 1) :
    atan2 (-(getForwards (recentre s)).x) (-(getForwards (recentre s)).z) = 0 ∧
    Real.arcsin (getForwards (recentre s)).y = 0 := by
  have hfd : dotVec3 (recentreForwards s) (recentreForwards s) = 1 := by
    rw [recentreForwards, dotVec3_mulVec3f_negOne]
    exact col2_dot_self _ h
  have hfq : rotAct s.currentToInitial ⟨0, 0, 1⟩ = mulVec3f (recentreForwards s) (-1) := by
    rw [recentreForwards, mulVec3f_negOne_negOne, col2_eq_rotAct _ h]
  have key := recentre_rotation_cancels s.currentToInitial (recentreForwards s) hfq hfd
  have huu : quatDot
      (mulQ (conjQ (mulQ (fromAxisAngle unitY (atan2 (-(recentreForwards s).x)
          (-(recentreForwards s).z)))
        (fromAxisAngle unitX (Real.arcsin (recentreForwards s).y)))) s.currentToInitial)
      (mulQ (conjQ (mulQ (fromAxisAngle unitY (atan2 (-(recentreForwards s).x)
          (-(recentreForwards s).z)))
        (fromAxisAngle unitX (Real.arcsin (recentreForwards s).y)))) s.currentToInitial) = 1 := by
    rw [quatDot_mulQ, quatDot_conjQ, recentreRotation_unit, h]
    norm_num
  have hg : getForwards (recentre s) = ⟨0, 0, -1⟩ := by
    rw [getForwards]
    have h1 : (recentre s).initialToRecentre =
        inverseQ (mulQ (fromAxisAngle unitY (atan2 (-(recentreForwards s).x)
            (-(recentreForwards s).z)))
          (fromAxisAngle unitX (Real.arcsin (recentreForwards s).y))) := rfl
    have h2 : (recentre s).currentToInitial = s.currentToInitial := rfl
    rw [h1, h2, inverseQ_unit _ (recentreRotation_unit _ _), col2_eq_rotAct _ huu, key]
    norm_num [mulVec3f]
  rw [hg]
  constructor
  · show atan2 (-(0:ℝ)) (-(-1:ℝ)) = 0
    norm_num [atan2_zero_one]
  · show Real.arcsin (0:ℝ) = 0
    exact Real.arcsin_zero

/-- Witness for C4 at the initial state (identity orientation). -/
theorem recentre_then_getForwards_zero_yaw_pitch_witness :
    atan2 (-(getForwards (recentre initState)).x) (-(getForwards (recentre initState)).z) = 0 ∧
    Real.arcsin (getForwards (recentre initState)).y = 0 :=
  recentre_then_getForwards_zero_yaw_pitch initState (by norm_num [initState, quatDot])
